import Mathlib

/-!
Verification development for the document ingestion and retrieval pipeline of
the real-vtuber frontend repository.

The TypeScript sources are shallowly embedded here:

* `src/lib/fileProcessor.ts` — text chunking (`chunkText`), file processing
  (`processFile`, `processSessionFiles`), PDF dispatch (`parsePDF`).
* `src/lib/pinecone.ts` (unnamed part 007, first section) — embedding batching
  (`generateEmbeddings`), vector upsert (`upsertVectors`), retried queries
  (`queryVectors`), retrieval assembly (`searchKnowledgeBase`,
  `getRelevantContext`), index lifecycle (`getOrCreateIndex`).
* the isolated PDF parser (unnamed part 007, third section) — `parsePDFFile`.

Modelling conventions:

* A JavaScript string is modelled as `List Char` (its sequence of code units;
  all characters that matter here are in the BMP so code unit = Char).
* JavaScript numbers holding integer values are modelled as `Int`; array
  lengths and indices that are provably non-negative use `Nat` where
  convenient.  The only non-integer numeric operation in the embedded code is
  the comparison `breakPoint > start + chunkSize * 0.5`; for integer inputs a
  binary double computes `chunkSize * 0.5` exactly (division by two is exact),
  so the comparison is modelled exactly as `2 * breakPoint > 2 * start +
  chunkSize` over `Int`.
* Similarity scores and embedding components are modelled as `ℚ`; the embedded
  code only compares and transports them, so exact rationals are faithful.
* `async` functions that can reject are modelled as `Except String α` (the
  error payload is the message); external effects (fetches, the file system,
  the vector database, clocks) are passed in as explicit oracle arguments.
* A `while` loop whose progress is not structural is modelled with explicit
  fuel returning `Option`; termination of the source loop is the theorem that
  a concrete fuel (the text length) always suffices.
-/

namespace RV

/-! ## JavaScript string primitives used by fileProcessor.ts -/

/-- Whitespace recognised by `String.prototype.trim`.  The code points listed
are the ASCII whitespace characters plus the common Unicode space separators;
this is the subset that can occur in the data handled by the repository. -/
def isJsWhitespace (c : Char) : Bool :=
  [9, 10, 11, 12, 13, 32, 160, 0x2028, 0x2029, 0xFEFF].contains c.toNat

/-- Model of `String.prototype.trim`: strip leading and trailing whitespace. -/
def jsTrim (l : List Char) : List Char :=
  ((l.dropWhile isJsWhitespace).reverse.dropWhile isJsWhitespace).reverse

/-- Model of `String.prototype.slice(start, stop)`: negative arguments count
from the end of the string, both arguments are clamped to `[0, length]`, and
the result is empty when the resolved stop does not exceed the resolved
start. -/
def jsSlice (l : List Char) (start stop : Int) : List Char :=
  let len : Int := l.length
  let s : Nat := if start < 0 then (len + start).toNat else min start.toNat l.length
  let e : Nat := if stop < 0 then (len + stop).toNat else min stop.toNat l.length
  (l.take e).drop s

/-- Model of `String.prototype.lastIndexOf(c, fromIndex)` for a one-character
search string: `fromIndex` is clamped to `[0, length]`, and the result is the
largest index `i ≤ fromIndex` holding `c`, or `-1` when there is none. -/
def lastIndexOf (l : List Char) (c : Char) (fromIndex : Int) : Int :=
  let bound : Nat := min fromIndex.toNat l.length
  match ((List.range l.length).filter
      (fun i => decide (i ≤ bound) && (l.getD i ' ' == c))).getLast? with
  | some i => (i : Int)
  | none => -1

/-! ## chunkText (src/lib/fileProcessor.ts, lines 114-149) -/

/-- One window-end computation of the `chunkText` loop body: `end =
min(start + chunkSize, len)`, then, when this is not the final window, snap to
just after the last sentence or newline break when that break point lies
strictly past the middle of the window.  The comparison with `chunkSize * 0.5`
is modelled exactly (see the header). -/
def windowEnd (text : List Char) (chunkSize : Int) (start : Int) : Int :=
  let len : Int := text.length
  let e0 := min (start + chunkSize) len
  if e0 < len then
    let lastSentence := lastIndexOf text '.' e0
    let lastNewline := lastIndexOf text '\n' e0
    let breakPoint := max lastSentence lastNewline
    if 2 * breakPoint > 2 * start + chunkSize then breakPoint + 1 else e0
  else e0

/-- One full iteration of the `chunkText` loop: compute the window end and the
next start `max(end - overlap, start + 1)`. -/
def chunkStep (text : List Char) (chunkSize overlap : Int) (start : Int) :
    Int × Int :=
  let e := windowEnd text chunkSize start
  (e, max (e - overlap) (start + 1))

/-- Fuel-indexed model of the `while (start < text.length)` loop of
`chunkText`, returning the list of `(start, end)` windows visited; `none` means
the fuel was exhausted before the loop ended. One unit of fuel is one loop
iteration. -/
def chunkWindowsAux (text : List Char) (chunkSize overlap : Int) :
    Nat → Int → Option (List (Int × Int))
  | 0, start =>
    if start < (text.length : Int) then none else some []
  | f + 1, start =>
    if start < (text.length : Int) then
      (chunkWindowsAux text chunkSize overlap f
          (chunkStep text chunkSize overlap start).2).map
        (fun ws => (start, (chunkStep text chunkSize overlap start).1) :: ws)
    else some []

/-- Windows produced by `chunkText`: the short-text branch returns the single
window covering the whole text, the loop branch runs the loop with fuel equal
to the text length (the termination theorem below shows this always
suffices). -/
def chunkWindows (text : List Char) (chunkSize overlap : Int) :
    List (Int × Int) :=
  if (text.length : Int) ≤ chunkSize then [(0, (text.length : Int))]
  else (chunkWindowsAux text chunkSize overlap text.length 0).getD []

/-- Model of `chunkText`: short texts are returned unchanged as a single
chunk; otherwise each window is sliced out, trimmed, and kept when
non-empty. -/
def chunkText (text : List Char) (chunkSize overlap : Int) : List (List Char) :=
  if (text.length : Int) ≤ chunkSize then [text]
  else
    (((chunkWindowsAux text chunkSize overlap text.length 0).getD []).map
        (fun w => jsTrim (jsSlice text w.1 w.2))).filter
      (fun c => !c.isEmpty)

/-- Modelled from the claim wording of C5 (spec section 4.1): the window end
that results from snapping whenever the break point is no earlier than
(greater than or equal to) `start + chunkSize * 0.5`.  The source code instead
snaps only on the strict comparison; this definition exists to be compared
against the code. -/
def claimedWindowEnd (text : List Char) (chunkSize : Int) (start : Int) : Int :=
  let len : Int := text.length
  let e0 := min (start + chunkSize) len
  if e0 < len then
    let lastSentence := lastIndexOf text '.' e0
    let lastNewline := lastIndexOf text '\n' e0
    let breakPoint := max lastSentence lastNewline
    if 2 * breakPoint ≥ 2 * start + chunkSize then breakPoint + 1 else e0
  else e0

/-! ## Pinecone client module (unnamed part 007, first section) -/

/-- Metadata object carried by an indexed vector, as read back from a query
match; each field may be absent. -/
structure MatchMetadata where
  fileName : Option String
  content : Option String
  sessionId : Option String
deriving DecidableEq

/-- Raw query match as returned by the vector database: every field may be
absent (the source reads them defensively with fallbacks). -/
structure PineconeMatch where
  id : Option String
  score : Option ℚ
  metadata : Option MatchMetadata
deriving DecidableEq

/-- Raw query response; the match list may be absent (the source applies
a fallback to the empty list).  The source field name `matches` is a Lean
keyword, hence `matchList`. -/
structure QueryResponse where
  matchList : Option (List PineconeMatch)
deriving DecidableEq

/-- JavaScript `x || d` for an optional string: both an absent value and the
empty string are falsy and select the default. -/
def jsOrString (o : Option String) (d : String) : String :=
  match o with
  | some s => if s = "" then d else s
  | none => d

/-- The match shape produced inside `searchKnowledgeBase` (lines 282-287):
`id`, `score` and `content` defaulted, metadata defaulted to the empty
object. -/
structure FormattedMatch where
  id : String
  score : ℚ
  content : String
  metadata : MatchMetadata
deriving DecidableEq

/-- Mapping of one raw match inside `searchKnowledgeBase`: `match.id || ''`,
`match.score || 0`, `String(match.metadata?.content || '')`,
`match.metadata || {}`.  For `id` and `content` the JavaScript `||` with an
empty-string default coincides with plain defaulting. -/
def formatMatch (m : PineconeMatch) : FormattedMatch :=
  { id := m.id.getD ""
    score := m.score.getD 0
    content := (m.metadata.bind (fun md => md.content)).getD ""
    metadata := m.metadata.getD { fileName := none, content := none, sessionId := none } }

/-- Model of `searchKnowledgeBase` (lines 235-303).  The embedding call and
the vector query are external effects, passed in as their outcomes:
`embedRes` is the result of `generateEmbeddings([query])` and `queryRes` the
result of `queryVectors(...)`.  An empty embedding response is rejected; the
catch block rethrows every error wrapped in a `Knowledge search failed`
message. -/
def searchKnowledgeBase (embedRes : Except String (List (List ℚ)))
    (queryRes : Except String QueryResponse) :
    Except String (List FormattedMatch) :=
  match embedRes with
  | .error e => .error ("Knowledge search failed: " ++ e)
  | .ok qe =>
    if qe.length = 0 ∨ (qe.headD []).length = 0 then
      .error "Knowledge search failed: Failed to generate query embedding"
    else
      match queryRes with
      | .error e => .error ("Knowledge search failed: " ++ e)
      | .ok r => .ok ((r.matchList.getD []).map formatMatch)

/-- Labelled context string built by `getRelevantContext` (lines 324-328). -/
def formatContext (m : FormattedMatch) : String :=
  "[Source: " ++ jsOrString m.metadata.fileName "Unknown source" ++ "]\n" ++
    m.content

/-- Model of `getRelevantContext` (lines 309-341): search, keep matches with
score strictly above 0.7, truncate to `maxContexts`, label each with its
source file; any error in the pipeline is swallowed and the empty list
returned. -/
def getRelevantContext (embedRes : Except String (List (List ℚ)))
    (queryRes : Except String QueryResponse) (maxContexts : Nat) :
    List String :=
  match searchKnowledgeBase embedRes queryRes with
  | .error _ => []
  | .ok ms =>
    ((ms.filter (fun m => decide ((7 : ℚ) / 10 < m.score))).take
        maxContexts).map formatContext

/-! ## generateEmbeddings (unnamed part 007, lines 112-153) -/

/-- Model of `generateEmbeddings`: the inference request is the oracle
`infer`, whose response items either carry a dense `values` array or not
(sparse formats are mapped to the empty vector, `item.values || []`).  The
loop slices the input into consecutive batches of 90 (`BATCH_SIZE`, chosen
below the provider ceiling of 96) and concatenates the per-batch results; a
failing batch fails the whole call.  The 100 ms pause between batches is a
pure delay with no data effect and is not modelled. -/
def generateEmbeddings
    (infer : List String → Except String (List (Option (List ℚ)))) :
    List String → Except String (List (List ℚ))
  | [] => .ok []
  | t :: ts =>
    match infer ((t :: ts).take 90) with
    | .error e => .error e
    | .ok data =>
      match generateEmbeddings infer (ts.drop 89) with
      | .error e => .error e
      | .ok rest => .ok (data.map (fun it => it.getD []) ++ rest)
  termination_by l => l.length
  decreasing_by simp [List.length_drop]; omega

/-- The batch decomposition performed by the `generateEmbeddings` loop:
consecutive slices of at most 90 inputs. -/
def embedBatches : List String → List (List String)
  | [] => []
  | t :: ts => (t :: ts).take 90 :: embedBatches (ts.drop 89)
  termination_by l => l.length
  decreasing_by simp [List.length_drop]; omega

/-! ## queryVectors (unnamed part 007, lines 184-229) -/

/-- Model of `Promise.race` between one query attempt and the 20000 ms timer:
when the attempt takes longer than 20 seconds the raced result is the timeout
error, otherwise it is the attempt outcome (a tie is resolved in favour of the
attempt; no claim depends on the tie). -/
def raceTimeout {R : Type} (durationMs : Nat) (outcome : Except String R) :
    Except String R :=
  if durationMs ≤ 20000 then outcome
  else .error "Pinecone query timeout after 20 seconds"

/-- Model of the `for (attempt = 1; attempt <= retries; attempt++)` loop of
`queryVectors`.  `att n` gives the duration and outcome of the n-th raw
attempt; the first component of the result is the returned or thrown value
(`none` models falling off the loop, which returns `undefined` and happens
only when `retries < 1`), the second component lists the backoff waits in
milliseconds performed between attempts. -/
def queryVectorsGo {R : Type} (att : Nat → Nat × Except String R) :
    Nat → Nat → Option (Except String R) × List Nat
  | 0, _ => (none, [])
  | rem + 1, attempt =>
    match raceTimeout (att attempt).1 (att attempt).2 with
    | .ok r => (some (.ok r), [])
    | .error e =>
      if rem = 0 then (some (.error e), [])
      else
        ((queryVectorsGo att rem (attempt + 1)).1,
          2 ^ attempt * 1000 :: (queryVectorsGo att rem (attempt + 1)).2)

/-- Model of `queryVectors`: run the attempt loop starting at attempt 1 with
`retries` attempts available (the source default is `retries = 3`). -/
def queryVectors {R : Type} (att : Nat → Nat × Except String R)
    (retries : Nat) : Option (Except String R) × List Nat :=
  queryVectorsGo att retries 1

/-! ## upsertVectors and getOrCreateIndex (unnamed part 007) -/

/-- Vector record handed to `upsert`; the metadata object is abstracted as an
optional key-value list. -/
structure VectorRecord where
  id : String
  values : List ℚ
  metadata : Option (List (String × String))
deriving DecidableEq

/-- The request issued by `upsertVectors` to
`index.namespace(namespace || '').upsert(vectors)`. -/
structure UpsertRequest where
  indexName : String
  ns : String
  vectors : List VectorRecord
deriving DecidableEq

/-- Model of `upsertVectors` (lines 158-179): the function builds the
namespaced upsert request directly from its arguments; the catch block only
rethrows, so the issued request is the whole observable behaviour. -/
def upsertVectors (indexName : String) (vectors : List VectorRecord)
    (ns : Option String) : UpsertRequest :=
  { indexName := indexName, ns := jsOrString ns "", vectors := vectors }

/-- An index-creation request as issued by `createIndex`. -/
structure CreateIndexRequest where
  name : String
  dimension : Nat
deriving DecidableEq

/-- Model of `getOrCreateIndex` (lines 71-107): when the name is already
listed no creation request is issued, otherwise a serverless index is created
with the hardcoded dimension 1536. -/
def getOrCreateIndex (existingIndexes : List String) (indexName : String) :
    Option CreateIndexRequest :=
  if indexName ∈ existingIndexes then none
  else some { name := indexName, dimension := 1536 }

/-! ## PDF parsing (unnamed part 007, third section, and fileProcessor.ts) -/

/-- Model of `path.basename`: the component after the last slash. -/
def jsBasename (p : String) : String :=
  (p.splitOn "/").getLastD p

/-- Sentinel text built by the catch block of `parsePDFFile`. -/
def pdfErrorSentinel (filePath msg : String) : String :=
  "[PDF Parsing Error: " ++ jsBasename filePath ++ "] - " ++ msg ++
    ". The PDF file could not be processed. Please ensure the file is not corrupted and pdf-parse is properly installed."

/-- Raw result of the pdf-parse library call: extracted text and page count,
each possibly absent. -/
structure PdfData where
  text : Option String
  numpages : Option Nat
deriving DecidableEq

/-- Model of `parsePDFFile` (part 007, lines 555-613).  `readRes` is the
outcome of reading the file (its size in bytes on success), `importOk` tells
whether pdf-parse could be loaded by either the dynamic import or the require
fallback, and `parseRes` is the outcome of the library call.  Every failure is
caught and mapped to the error sentinel with `pages = 1`; on success the text
is `pdfData.text || ''` and the page count `pdfData.numpages || 1`. -/
def parsePDFFile (filePath : String) (readRes : Except String Nat)
    (importOk : Bool) (parseRes : Except String PdfData) :
    String × Option Nat :=
  match readRes with
  | .error e => (pdfErrorSentinel filePath e, some 1)
  | .ok _ =>
    if !importOk then
      (pdfErrorSentinel filePath "PDF parsing library is not available", some 1)
    else
      match parseRes with
      | .error e => (pdfErrorSentinel filePath e, some 1)
      | .ok d =>
        (d.text.getD "",
          some (match d.numpages with
            | some p => if p = 0 then 1 else p
            | none => 1))

/-- Sentinel text built by `parsePDF` in fileProcessor.ts when the
availability probe fails. -/
def pdfUnavailableSentinel (filePath : String) : String :=
  "[PDF file: " ++ jsBasename filePath ++
    " - PDF parsing library not available. Please install pdf-parse.]"

/-- Model of `parsePDF` (fileProcessor.ts, lines 39-73): probe availability
first and degrade to a sentinel, otherwise delegate to `parsePDFFile`; since
`parsePDFFile` catches all of its own errors the outer catch block is
unreachable. -/
def parsePDF (filePath : String) (available : Bool)
    (readRes : Except String Nat) (importOk : Bool)
    (parseRes : Except String PdfData) : String × Option Nat :=
  if !available then (pdfUnavailableSentinel filePath, some 1)
  else parsePDFFile filePath readRes importOk parseRes

/-! ## processFile and processSessionFiles (fileProcessor.ts) -/

/-- Model of `path.extname` composed with `toLowerCase`: the suffix of the
base name from its last dot, empty for no dot or a leading dot. -/
def jsExtnameLower (p : String) : String :=
  let base := (jsBasename p).toList
  match ((List.range base.length).filter
      (fun i => base.getD i ' ' == '.')).getLast? with
  | none => ""
  | some 0 => ""
  | some i => String.mk ((base.drop i).map Char.toLower)

/-- Word counter used for chunk metadata:
`content.trim().split(/\s+/).length`; splitting the empty string yields a
one-element list. -/
def countWordsAux : Bool → List Char → Nat
  | _, [] => 0
  | inWord, c :: rest =>
    if isJsWhitespace c then countWordsAux false rest
    else (if inWord then 0 else 1) + countWordsAux true rest

/-- Number of `\s+`-separated words of the trimmed text, as JavaScript
computes it. -/
def jsWordCount (l : List Char) : Nat :=
  let t := jsTrim l
  if t.isEmpty then 1 else countWordsAux false t

/-- Chunk metadata record (fileProcessor.ts, lines 13-23). -/
structure ChunkMetadata where
  fileName : String
  fileType : String
  chunkIndex : Nat
  totalChunks : Nat
  sessionId : String
  sourceFile : String
  pageNumber : Option Nat
  wordCount : Nat
  createdAt : String
deriving DecidableEq

/-- Document chunk record (fileProcessor.ts, lines 10-24). -/
structure DocumentChunk where
  id : String
  content : List Char
  metadata : ChunkMetadata
deriving DecidableEq

/-- Processing manifest for one file (fileProcessor.ts, lines 26-34). -/
structure ProcessedDocument where
  fileName : String
  fileType : String
  originalSize : Nat
  chunks : List DocumentChunk
  totalChunks : Nat
  processedAt : String
  sessionId : String
deriving DecidableEq

/-- Chunk records built by `processFile` (lines 178-192).  `pageNumber` is
included only when `pages` is truthy; its double arithmetic
`Math.floor((index / totalChunks) * pages) + 1` is modelled exactly with
natural division (exact for every size reachable here). -/
def mkDocumentChunks (sessionId fileName fileType : String)
    (pages : Option Nat) (now : String) (textChunks : List (List Char)) :
    List DocumentChunk :=
  textChunks.enum.map (fun ic =>
    { id := sessionId ++ "_" ++ fileName ++ "_chunk_" ++ toString ic.1
      content := jsTrim ic.2
      metadata :=
        { fileName := fileName
          fileType := fileType
          chunkIndex := ic.1
          totalChunks := textChunks.length
          sessionId := sessionId
          sourceFile := fileName
          pageNumber :=
            match pages with
            | some p => if p = 0 then none
                else some (ic.1 * p / textChunks.length + 1)
            | none => none
          wordCount := jsWordCount ic.2
          createdAt := now } })

/-- File-system effects consumed by one `processFile` call: the `fs.stat`
outcome (file size), the `parseFile` outcome (text and optional page count),
and the combined outcome of the manifest and chunk writes. -/
structure FileFx where
  statRes : Except String Nat
  parseRes : Except String (List Char × Option Nat)
  writeRes : Except String Unit

/-- Model of `processFile` (lines 154-225): stat, parse, reject blank text
with the `EmptyContent` error, chunk with `chunkText(text, 1000, 200)`,
build chunk records, persist, and return the manifest; every failure
propagates to the caller. -/
def processFile (sessionId fileName : String) (fx : FileFx) (now : String) :
    Except String ProcessedDocument :=
  match fx.statRes with
  | .error e => .error e
  | .ok size =>
    match fx.parseRes with
    | .error e => .error e
    | .ok tp =>
      if (jsTrim tp.1).isEmpty then .error "No text content found in file"
      else
        let fileType := jsExtnameLower fileName
        let chunks := mkDocumentChunks sessionId fileName fileType tp.2 now
          (chunkText tp.1 1000 200)
        match fx.writeRes with
        | .error e => .error e
        | .ok _ =>
          .ok { fileName := fileName
                fileType := fileType
                originalSize := size
                chunks := chunks
                totalChunks := chunks.length
                processedAt := now
                sessionId := sessionId }

/-- The per-file loop of `processSessionFiles` (lines 243-251): each file is
processed inside a try block; a failure is logged and skipped and the loop
continues. -/
def processBatch (sessionId : String) (fx : String → FileFx) (now : String) :
    List String → List ProcessedDocument
  | [] => []
  | f :: fs =>
    match processFile sessionId f (fx f) now with
    | .ok doc => doc :: processBatch sessionId fx now fs
    | .error _ => processBatch sessionId fx now fs

/-- Model of `processSessionFiles` (lines 230-260): ensure the processed
directory exists, list the uploads directory, then run the per-file loop;
only the mkdir and readdir failures escape to the caller. -/
def processSessionFiles (sessionId : String) (mkdirRes : Except String Unit)
    (readdirRes : Except String (List String)) (fx : String → FileFx)
    (now : String) : Except String (List ProcessedDocument) :=
  match mkdirRes with
  | .error e => .error e
  | .ok _ =>
    match readdirRes with
    | .error e => .error e
    | .ok files => .ok (processBatch sessionId fx now files)

/-- Concrete query matches used by the retrieval witness: similarity scores
0.9, 0.75, 0.6 and 0.5, the instance named by the spec's retrieval test. -/
def sampleMatches : List PineconeMatch :=
  [⟨some "m1", some (9 / 10), some ⟨some "a.txt", some "Alpha", some "s1"⟩⟩,
   ⟨some "m2", some (3 / 4), some ⟨some "b.txt", some "Beta", some "s1"⟩⟩,
   ⟨some "m3", some (3 / 5), some ⟨some "c.txt", some "Gamma", some "s1"⟩⟩,
   ⟨some "m4", some (1 / 2), some ⟨some "d.txt", some "Delta", some "s1"⟩⟩]

/-! ## Supporting lemmas for the chunker -/

theorem getLast?_eq_some_mem {α : Type} {l : List α} {a : α}
    (h : l.getLast? = some a) : a ∈ l := by
  have hx : a ∈ l.getLast? := by rw [Option.mem_def]; exact h
  obtain ⟨hne, rfl⟩ := List.mem_getLast?_eq_getLast hx
  exact l.getLast_mem hne

theorem lastIndexOf_le (l : List Char) (c : Char) (fi : Int) (hfi : 0 ≤ fi) :
    lastIndexOf l c fi ≤ fi := by
  simp only [lastIndexOf]
  split
  · next i h =>
    have hm := getLast?_eq_some_mem h
    have hp := (List.mem_filter.mp hm).2
    rw [Bool.and_eq_true, decide_eq_true_eq] at hp
    have : i ≤ min fi.toNat l.length := hp.1
    omega
  · omega

theorem windowEnd_bounds (text : List Char) (cs : Int) (start : Int)
    (h1 : 1 ≤ cs) (h0 : 0 ≤ start) (hlt : start < (text.length : Int)) :
    start + 1 ≤ windowEnd text cs start ∧
    windowEnd text cs start ≤ (text.length : Int) := by
  simp only [windowEnd]
  split
  · next he =>
    have hd := lastIndexOf_le text '.' (min (start + cs) (text.length : Int))
      (by omega)
    have hn := lastIndexOf_le text '\n' (min (start + cs) (text.length : Int))
      (by omega)
    split
    · next hb => omega
    · next hb => omega
  · next he => omega

theorem chunkStep_snd_ge (text : List Char) (cs ov : Int) (start : Int) :
    start + 1 ≤ (chunkStep text cs ov start).2 := by
  simp only [chunkStep]
  omega

theorem chunkStep_fst_eq (text : List Char) (cs ov : Int) (start : Int) :
    (chunkStep text cs ov start).1 = windowEnd text cs start := rfl

theorem chunkWindowsAux_of_ge (text : List Char) (cs ov : Int) (fuel : Nat)
    (start : Int) (h : (text.length : Int) ≤ start) :
    chunkWindowsAux text cs ov fuel start = some [] := by
  cases fuel <;> simp [chunkWindowsAux] <;> omega

theorem chunkWindowsAux_isSome (text : List Char) (cs ov : Int) :
    ∀ (fuel : Nat) (start : Int), (text.length : Int) ≤ start + fuel →
      (chunkWindowsAux text cs ov fuel start).isSome := by
  intro fuel
  induction fuel with
  | zero =>
    intro start h
    rw [chunkWindowsAux_of_ge text cs ov 0 start (by omega)]
    rfl
  | succ f ih =>
    intro start h
    by_cases hs : start < (text.length : Int)
    · have hstep := chunkStep_snd_ge text cs ov start
      have hrec := ih (chunkStep text cs ov start).2 (by omega)
      simp only [chunkWindowsAux, if_pos hs, Option.isSome_map']
      exact hrec
    · rw [chunkWindowsAux_of_ge text cs ov (f + 1) start (by omega)]
      rfl

theorem windowEnd_eq_len_of_last (text : List Char) (cs : Int) (start : Int)
    (h1 : 1 ≤ cs) (h : (text.length : Int) ≤ start + 1) :
    windowEnd text cs start = (text.length : Int) := by
  simp only [windowEnd]
  have hmin : min (start + cs) (text.length : Int) = (text.length : Int) := by
    omega
  rw [hmin, if_neg (lt_irrefl _)]

theorem chunkWindowsAux_spec (text : List Char) (cs ov : Int)
    (h1 : 1 ≤ cs) (hov : 0 ≤ ov) :
    ∀ (fuel : Nat) (start : Int) (ws : List (Int × Int)),
      0 ≤ start → start < (text.length : Int) →
      chunkWindowsAux text cs ov fuel start = some ws →
      ws.head?.map Prod.fst = some start ∧
      ws.getLast?.map Prod.snd = some (text.length : Int) ∧
      List.Chain' (fun p q : Int × Int => q.1 ≤ p.2) ws := by
  intro fuel
  induction fuel with
  | zero =>
    intro start ws h0 hs hw
    simp [chunkWindowsAux, if_pos hs] at hw
  | succ f ih =>
    intro start ws h0 hs hw
    simp only [chunkWindowsAux, if_pos hs] at hw
    obtain ⟨ws', hws', hcons⟩ := Option.map_eq_some'.mp hw
    subst hcons
    have heb := windowEnd_bounds text cs start h1 h0 hs
    rw [← chunkStep_fst_eq text cs ov start] at heb
    have hs'1 := chunkStep_snd_ge text cs ov start
    have hs'e : (chunkStep text cs ov start).2 ≤ (chunkStep text cs ov start).1 := by
      simp only [chunkStep] at hs'1 ⊢
      simp only [chunkStep_fst_eq] at heb
      omega
    by_cases hlen : (text.length : Int) ≤ (chunkStep text cs ov start).2
    · rw [chunkWindowsAux_of_ge text cs ov f _ hlen] at hws'
      injection hws' with hws'
      subst hws'
      refine ⟨by simp, ?_, by simp⟩
      have he_len : (chunkStep text cs ov start).1 = (text.length : Int) := by
        have hmax : (chunkStep text cs ov start).2 =
            max ((chunkStep text cs ov start).1 - ov) (start + 1) := rfl
        rcases le_max_iff.mp (hmax ▸ hlen) with hc | hc
        · omega
        · rw [chunkStep_fst_eq]
          exact windowEnd_eq_len_of_last text cs start h1 (by omega)
      simp [he_len]
    · push_neg at hlen
      obtain ⟨hh, hl, hc⟩ := ih (chunkStep text cs ov start).2 ws'
        (by omega) hlen hws'
      refine ⟨by simp, ?_, ?_⟩
      · cases ws' with
        | nil => simp at hh
        | cons b t => rw [List.getLast?_cons_cons]; exact hl
      · rw [List.chain'_cons']
        refine ⟨?_, hc⟩
        intro y hy
        have hy' : ws'.head? = some y := hy
        have : y.1 = (chunkStep text cs ov start).2 := by
          rw [hy'] at hh
          simp at hh
          omega
        simp only [this]
        exact hs'e

theorem chunkWindowsAux_ends (text : List Char) (cs ov : Int) :
    ∀ (fuel : Nat) (start : Int) (ws : List (Int × Int)),
      chunkWindowsAux text cs ov fuel start = some ws →
      ∀ w ∈ ws, w.2 = windowEnd text cs w.1 := by
  intro fuel
  induction fuel with
  | zero =>
    intro start ws hw w hmem
    by_cases hs : start < (text.length : Int)
    · simp [chunkWindowsAux, if_pos hs] at hw
    · rw [chunkWindowsAux_of_ge text cs ov 0 start (by omega)] at hw
      injection hw with hw
      subst hw
      simp at hmem
  | succ f ih =>
    intro start ws hw w hmem
    by_cases hs : start < (text.length : Int)
    · simp only [chunkWindowsAux, if_pos hs] at hw
      obtain ⟨ws', hws', hcons⟩ := Option.map_eq_some'.mp hw
      subst hcons
      rcases List.mem_cons.mp hmem with hw0 | hwrest
      · subst hw0
        exact chunkStep_fst_eq text cs ov start
      · exact ih _ ws' hws' w hwrest
    · rw [chunkWindowsAux_of_ge text cs ov (f + 1) start (by omega)] at hw
      injection hw with hw
      subst hw
      simp at hmem

theorem covered_of_chain (len : Int) :
    ∀ (ws : List (Int × Int)) (q : Int × Int),
      List.Chain' (fun p r : Int × Int => r.1 ≤ p.2) (q :: ws) →
      (q :: ws).getLast?.map Prod.snd = some len →
      ∀ x : Int, q.1 ≤ x → x < len →
        ∃ w ∈ q :: ws, w.1 ≤ x ∧ x < w.2 := by
  intro ws
  induction ws with
  | nil =>
    intro q _ hlast x hx hxlen
    simp only [List.getLast?_singleton, Option.map_some'] at hlast
    injection hlast with hlast
    exact ⟨q, List.mem_singleton_self q, hx, by omega⟩
  | cons q' t ih =>
    intro q hchain hlast x hx hxlen
    by_cases hxe : x < q.2
    · exact ⟨q, List.mem_cons_self q _, hx, hxe⟩
    · push_neg at hxe
      rw [List.chain'_cons] at hchain
      have hx' : q'.1 ≤ x := le_trans hchain.1 hxe
      rw [List.getLast?_cons_cons] at hlast
      obtain ⟨w, hwmem, hw⟩ := ih q' hchain.2 hlast x hx' hxlen
      exact ⟨w, List.mem_cons_of_mem q hwmem, hw⟩

/-! ## Claim theorems for the chunker (C3, C4, C5) -/

/-- C3: for every input text and parameters with `0 ≤ overlap < chunkSize`,
the ordered window sequence of `chunkText` covers the whole text without gaps:
the first window starts at 0, each window starts no later than the end of the
previous one, the final window ends at the text length, and consequently every
character position lies inside some window. -/
theorem chunkText_coverage (text : List Char) (cs ov : Int)
    (hov : 0 ≤ ov) (hlt : ov < cs) :
    (chunkWindows text cs ov).head?.map Prod.fst = some 0 ∧
    (chunkWindows text cs ov).getLast?.map Prod.snd =
      some (text.length : Int) ∧
    List.Chain' (fun p q : Int × Int => q.1 ≤ p.2) (chunkWindows text cs ov) ∧
    ∀ i : Int, 0 ≤ i → i < (text.length : Int) →
      ∃ w ∈ chunkWindows text cs ov, w.1 ≤ i ∧ i < w.2 := by
  have h1 : 1 ≤ cs := by omega
  by_cases hshort : (text.length : Int) ≤ cs
  · simp only [chunkWindows, if_pos hshort]
    refine ⟨rfl, rfl, List.chain'_singleton _, ?_⟩
    intro i hi hilen
    exact ⟨(0, (text.length : Int)), List.mem_singleton_self _, hi, hilen⟩
  · push_neg at hshort
    have hpos : (0 : Int) < (text.length : Int) := by omega
    have hsome := chunkWindowsAux_isSome text cs ov text.length 0 (by omega)
    obtain ⟨ws, hws⟩ := Option.isSome_iff_exists.mp hsome
    have hW : chunkWindows text cs ov = ws := by
      simp only [chunkWindows, if_neg (by omega : ¬ (text.length : Int) ≤ cs)]
      rw [hws]
      rfl
    obtain ⟨hh, hl, hc⟩ :=
      chunkWindowsAux_spec text cs ov h1 hov text.length 0 ws le_rfl hpos hws
    rw [hW]
    refine ⟨hh, hl, hc, ?_⟩
    intro i hi hilen
    cases ws with
    | nil => simp at hh
    | cons q t =>
      have hq1 : q.1 = 0 := by
        simp at hh
        omega
      exact covered_of_chain (text.length : Int) t q hc hl i (by omega) hilen

/-- C4: the `chunkText` loop terminates on every input, including pathological
parameters (`overlap ≥ chunkSize`, negative values): the next start is always
at least `start + 1`, so the loop makes strict forward progress, and a fuel of
`text.length` loop iterations always suffices for the loop to finish. -/
theorem chunkText_terminates (text : List Char) (cs ov : Int) :
    (∀ start : Int, start + 1 ≤ (chunkStep text cs ov start).2) ∧
    (chunkWindowsAux text cs ov text.length 0).isSome := by
  exact ⟨chunkStep_snd_ge text cs ov,
    chunkWindowsAux_isSome text cs ov text.length 0 (by omega)⟩

/-- C5 counterexample: the claim snaps the window end whenever the break point
is no earlier than (at least) `start + chunkSize * 0.5`, but the code requires
the break point to be strictly later.  On the text `"ab.xyzw"` with
`chunkSize = 4` the break point of the first window sits exactly at
`start + chunkSize * 0.5 = 2`, so the claimed rule predicts end `3` while the
code keeps end `4`. -/
theorem chunkText_snap_claim_counterexample :
    ¬ (∀ w ∈ chunkWindows ("ab.xyzw".toList) 4 0,
        w.2 < (("ab.xyzw".toList).length : Int) →
        w.2 = claimedWindowEnd ("ab.xyzw".toList) 4 w.1) := by
  decide

/-- C5 amended: for every non-final window of `chunkText`, the end is snapped
to `breakPoint + 1` exactly when the break point is strictly later than
`start + chunkSize * 0.5` (modelled exactly as `2 * breakPoint > 2 * start +
chunkSize`); otherwise the end stays `min(start + chunkSize, len)`. -/
theorem chunkText_snap_strict (text : List Char) (cs ov : Int) :
    ∀ w ∈ chunkWindows text cs ov, w.2 < (text.length : Int) →
      (2 * max (lastIndexOf text '.' (min (w.1 + cs) (text.length : Int)))
          (lastIndexOf text '\n' (min (w.1 + cs) (text.length : Int))) >
        2 * w.1 + cs →
        w.2 = max (lastIndexOf text '.' (min (w.1 + cs) (text.length : Int)))
          (lastIndexOf text '\n' (min (w.1 + cs) (text.length : Int))) + 1) ∧
      (¬ (2 * max (lastIndexOf text '.' (min (w.1 + cs) (text.length : Int)))
          (lastIndexOf text '\n' (min (w.1 + cs) (text.length : Int))) >
        2 * w.1 + cs) →
        w.2 = min (w.1 + cs) (text.length : Int)) := by
  intro w hmem hfin
  by_cases hshort : (text.length : Int) ≤ cs
  · simp only [chunkWindows, if_pos hshort] at hmem
    simp at hmem
    subst hmem
    simp at hfin
  · have hW : ∀ w ∈ chunkWindows text cs ov, w.2 = windowEnd text cs w.1 := by
      intro w' hw'
      simp only [chunkWindows, if_neg (by omega : ¬ (text.length : Int) ≤ cs)]
        at hw'
      have hsome := chunkWindowsAux_isSome text cs ov text.length 0 (by omega)
      obtain ⟨ws, hws⟩ := Option.isSome_iff_exists.mp hsome
      rw [hws] at hw'
      exact chunkWindowsAux_ends text cs ov text.length 0 ws hws w'
        (by simpa using hw')
    have hwe := hW w hmem
    have he0 : min (w.1 + cs) (text.length : Int) < (text.length : Int) := by
      by_contra hk
      push_neg at hk
      have : windowEnd text cs w.1 = (text.length : Int) := by
        simp only [windowEnd]
        rw [if_neg (by omega)]
        omega
      omega
    rw [hwe]
    simp only [windowEnd]
    rw [if_pos he0]
    constructor
    · intro hbp
      rw [if_pos hbp]
    · intro hbp
      rw [if_neg hbp]

/-- C5 amended witness: on the concrete text `"ab.xyzw"` with chunk size 4 the
first window ends at `min(0 + 4, 7) = 4` because the break point test fails. -/
theorem chunkText_snap_strict_witness :
    (0, 4) ∈ chunkWindows ("ab.xyzw".toList) 4 0 ∧
    ((0, 4) : Int × Int).2 < (("ab.xyzw".toList).length : Int) ∧
    ((0, 4) : Int × Int).2 = min (((0, 4) : Int × Int).1 + 4)
      (("ab.xyzw".toList).length : Int) := by
  refine ⟨by decide, by decide, ?_⟩
  exact (chunkText_snap_strict ("ab.xyzw".toList) 4 0 (0, 4) (by decide)
    (by decide)).2 (by decide)

/-- C3 witness: on a concrete 39-character text with chunk size 12 and overlap
3 the window list starts at 0, chains without gaps, and ends at 39. -/
theorem chunkText_coverage_witness :
    ((0 : Int) ≤ 3 ∧ (3 : Int) < 12) ∧
    ((chunkWindows ("Hello. World is big. Yes indeed friend.".toList) 12 3).head?.map
        Prod.fst = some 0 ∧
      (chunkWindows ("Hello. World is big. Yes indeed friend.".toList) 12 3).getLast?.map
        Prod.snd = some (("Hello. World is big. Yes indeed friend.".toList).length : Int) ∧
      List.Chain' (fun p q : Int × Int => q.1 ≤ p.2)
        (chunkWindows ("Hello. World is big. Yes indeed friend.".toList) 12 3) ∧
      ∀ i : Int, 0 ≤ i →
        i < (("Hello. World is big. Yes indeed friend.".toList).length : Int) →
        ∃ w ∈ chunkWindows ("Hello. World is big. Yes indeed friend.".toList) 12 3,
          w.1 ≤ i ∧ i < w.2) := by
  exact ⟨⟨by decide, by decide⟩,
    chunkText_coverage ("Hello. World is big. Yes indeed friend.".toList) 12 3
      (by decide) (by decide)⟩

/-! ## Claim theorems for the retrieval assembler (C1, C2) -/

/-- C1: when the topic embedding and the vector query both succeed (and the
embedding is non-empty), `getRelevantContext` returns exactly the query
matches whose similarity score is strictly greater than 0.7, in rank order,
truncated to `maxContexts`, each formatted as
`[Source: <fileName>]\n<content>` from the match metadata (with the source
fallbacks `Unknown source` and the empty content applied when the metadata
fields are absent). -/
theorem getRelevantContext_score_gate
    (embedRes : Except String (List (List ℚ)))
    (queryRes : Except String QueryResponse) (maxContexts : Nat)
    (qe : List (List ℚ)) (r : QueryResponse)
    (hemb : embedRes = .ok qe)
    (hne : ¬ (qe.length = 0 ∨ (qe.headD []).length = 0))
    (hq : queryRes = .ok r) :
    getRelevantContext embedRes queryRes maxContexts =
      (((r.matchList.getD []).filter
          (fun m => decide ((7 : ℚ) / 10 < m.score.getD 0))).take
        maxContexts).map
        (fun m => "[Source: " ++
          jsOrString (m.metadata.getD
            { fileName := none, content := none, sessionId := none }).fileName
            "Unknown source" ++ "]\n" ++
          ((m.metadata.bind (fun md => md.content)).getD "")) := by
  subst hemb
  subst hq
  simp only [getRelevantContext, searchKnowledgeBase, if_neg hne]
  rw [List.filter_map, ← List.map_take, List.map_map]
  have hp : ((fun m : FormattedMatch => decide ((7 : ℚ) / 10 < m.score)) ∘
      formatMatch) =
      (fun m : PineconeMatch => decide ((7 : ℚ) / 10 < m.score.getD 0)) := by
    funext m
    simp [formatMatch]
  have hc : (formatContext ∘ formatMatch) =
      (fun m : PineconeMatch => "[Source: " ++
        jsOrString (m.metadata.getD
          { fileName := none, content := none, sessionId := none }).fileName
          "Unknown source" ++ "]\n" ++
        ((m.metadata.bind (fun md => md.content)).getD "")) := by
    funext m
    simp [formatContext, formatMatch]
  rw [hp, hc]

/-- C1 witness: on the spec's retrieval-gate instance (scores 0.9, 0.75, 0.6,
0.5) exactly the first two matches are returned, each labelled with its
source file. -/
theorem getRelevantContext_score_gate_witness :
    ¬ (([[(1 : ℚ)]] : List (List ℚ)).length = 0 ∨
        (([[(1 : ℚ)]] : List (List ℚ)).headD []).length = 0) ∧
    getRelevantContext (.ok [[(1 : ℚ)]])
        (.ok { matchList := some sampleMatches }) 5 =
      ((sampleMatches.filter
          (fun m => decide ((7 : ℚ) / 10 < m.score.getD 0))).take 5).map
        (fun m => "[Source: " ++
          jsOrString (m.metadata.getD
            { fileName := none, content := none, sessionId := none }).fileName
            "Unknown source" ++ "]\n" ++
          ((m.metadata.bind (fun md => md.content)).getD "")) ∧
    getRelevantContext (.ok [[(1 : ℚ)]])
        (.ok { matchList := some sampleMatches }) 5 =
      ["[Source: a.txt]\nAlpha", "[Source: b.txt]\nBeta"] :=
  ⟨by decide,
    getRelevantContext_score_gate (.ok [[(1 : ℚ)]])
      (.ok { matchList := some sampleMatches }) 5 [[(1 : ℚ)]]
      { matchList := some sampleMatches } rfl (by decide) rfl,
    by norm_num [getRelevantContext, searchKnowledgeBase, sampleMatches,
      formatMatch, formatContext, jsOrString, List.filter_cons]
       exact ⟨rfl, rfl⟩⟩

/-- C2: whenever any step of the retrieval pipeline fails — the topic
embedding call rejects, the embedding comes back empty, or the vector query
rejects — `getRelevantContext` swallows the error and returns the empty list
instead of propagating the exception. -/
theorem getRelevantContext_fail_open
    (embedRes : Except String (List (List ℚ)))
    (queryRes : Except String QueryResponse) (maxContexts : Nat)
    (h : (∃ e, embedRes = .error e) ∨ (∃ e, queryRes = .error e) ∨
      (∃ qe, embedRes = .ok qe ∧
        (qe.length = 0 ∨ (qe.headD []).length = 0))) :
    getRelevantContext embedRes queryRes maxContexts = [] := by
  rcases h with ⟨e, rfl⟩ | ⟨e, he⟩ | ⟨qe, rfl, hq⟩
  · rfl
  · subst he
    cases embedRes with
    | error e' => rfl
    | ok qe =>
      simp only [getRelevantContext, searchKnowledgeBase]
      by_cases hc : qe.length = 0 ∨ (qe.headD []).length = 0
      · rw [if_pos hc]
      · rw [if_neg hc]
  · simp only [getRelevantContext, searchKnowledgeBase, if_pos hq]

/-- C2 witness: a failing embedding call yields the empty context list. -/
theorem getRelevantContext_fail_open_witness :
    ((Except.error "embedding service down" :
        Except String (List (List ℚ))) = .error "embedding service down") ∧
    getRelevantContext (.error "embedding service down")
      (.ok { matchList := some sampleMatches }) 5 = [] :=
  ⟨rfl, getRelevantContext_fail_open (.error "embedding service down")
    (.ok { matchList := some sampleMatches }) 5
    (Or.inl ⟨"embedding service down", rfl⟩)⟩

/-! ## Supporting lemmas for the embedder -/

theorem generateEmbeddings_ok
    (infer : List String → Except String (List (Option (List ℚ))))
    (e : String → List ℚ)
    (hf : ∀ b, infer b = .ok (b.map (fun t => some (e t)))) :
    ∀ (n : Nat) (texts : List String), texts.length ≤ n →
      generateEmbeddings infer texts = .ok (texts.map e) := by
  intro n
  induction n with
  | zero =>
    intro texts h
    cases texts with
    | nil => simp [generateEmbeddings]
    | cons t ts => simp at h
  | succ n ih =>
    intro texts h
    cases texts with
    | nil => simp [generateEmbeddings]
    | cons t ts =>
      have hrec := ih (ts.drop 89) (by simp [List.length_drop] at h ⊢; omega)
      have hsplit : (t :: ts).take 90 ++ ts.drop 89 = t :: ts := by
        rw [show ts.drop 89 = (t :: ts).drop 90 from rfl]
        exact List.take_append_drop 90 (t :: ts)
      simp only [generateEmbeddings, hf ((t :: ts).take 90), hrec]
      rw [List.map_map]
      have hgd : ((fun it : Option (List ℚ) => it.getD []) ∘
          (fun t => some (e t))) = e := by
        funext x
        simp
      rw [hgd, ← List.map_append, hsplit]

theorem embedBatches_flatten :
    ∀ (n : Nat) (texts : List String), texts.length ≤ n →
      (embedBatches texts).flatten = texts := by
  intro n
  induction n with
  | zero =>
    intro texts h
    cases texts with
    | nil => simp [embedBatches]
    | cons t ts => simp at h
  | succ n ih =>
    intro texts h
    cases texts with
    | nil => simp [embedBatches]
    | cons t ts =>
      have hrec := ih (ts.drop 89) (by simp [List.length_drop] at h ⊢; omega)
      simp only [embedBatches, List.flatten_cons, hrec]
      rw [show ts.drop 89 = (t :: ts).drop 90 from rfl]
      exact List.take_append_drop 90 (t :: ts)

theorem embedBatches_le :
    ∀ (n : Nat) (texts : List String), texts.length ≤ n →
      ∀ b ∈ embedBatches texts, b.length ≤ 90 := by
  intro n
  induction n with
  | zero =>
    intro texts h b hb
    cases texts with
    | nil => simp [embedBatches] at hb
    | cons t ts => simp at h
  | succ n ih =>
    intro texts h b hb
    cases texts with
    | nil => simp [embedBatches] at hb
    | cons t ts =>
      simp only [embedBatches, List.mem_cons] at hb
      rcases hb with rfl | hb
      · rw [List.length_take]
        omega
      · exact ih (ts.drop 89) (by simp [List.length_drop] at h ⊢; omega) b hb

/-! ## Claim theorem for the embedder (C6) -/

/-- C6: when every inference batch answers with one embedding per input (the
provider contract), `generateEmbeddings` returns a list of the same length as
its input whose i-th element is the embedding of the i-th text; the loop
splits the input into consecutive batches of at most 90 items whose
concatenation is exactly the input, so batching neither reorders nor drops
results. -/
theorem generateEmbeddings_alignment
    (infer : List String → Except String (List (Option (List ℚ))))
    (e : String → List ℚ) (texts : List String)
    (hf : ∀ b, infer b = .ok (b.map (fun t => some (e t)))) :
    generateEmbeddings infer texts = .ok (texts.map e) ∧
    (texts.map e).length = texts.length ∧
    (∀ b ∈ embedBatches texts, b.length ≤ 90) ∧
    (embedBatches texts).flatten = texts :=
  ⟨generateEmbeddings_ok infer e hf texts.length texts le_rfl,
    List.length_map texts e,
    embedBatches_le texts.length texts le_rfl,
    embedBatches_flatten texts.length texts le_rfl⟩

/-- C6 witness: 91 distinct inputs force two batches (90 and 1) and still
come back positionally aligned. -/
theorem generateEmbeddings_alignment_witness :
    (∀ b, (fun b : List String =>
        (Except.ok (b.map (fun t => some [(t.length : ℚ)])) :
          Except String (List (Option (List ℚ))))) b =
      .ok (b.map (fun t => some ((fun t : String => [(t.length : ℚ)]) t)))) ∧
    (generateEmbeddings
        (fun b => .ok (b.map (fun t => some [(t.length : ℚ)])))
        ((List.range 91).map (fun i => toString i)) =
      .ok (((List.range 91).map (fun i => toString i)).map
        (fun t => [(t.length : ℚ)])) ∧
      (((List.range 91).map (fun i => toString i)).map
        (fun t => [(t.length : ℚ)])).length =
        ((List.range 91).map (fun i => toString i)).length ∧
      (∀ b ∈ embedBatches ((List.range 91).map (fun i => toString i)),
        b.length ≤ 90) ∧
      (embedBatches ((List.range 91).map (fun i => toString i))).flatten =
        (List.range 91).map (fun i => toString i)) ∧
    ((List.range 91).map (fun i => toString i)).length = 91 :=
  ⟨fun _ => rfl,
    generateEmbeddings_alignment
      (fun b => .ok (b.map (fun t => some [(t.length : ℚ)])))
      (fun t => [(t.length : ℚ)])
      ((List.range 91).map (fun i => toString i)) (fun _ => rfl),
    by simp⟩

/-! ## Claim theorem for the query retry loop (C7) -/

theorem queryVectorsGo_succ {R : Type} (att : Nat → Nat × Except String R)
    (rem attempt : Nat) :
    queryVectorsGo att (rem + 1) attempt =
      match raceTimeout (att attempt).1 (att attempt).2 with
      | .ok r => (some (.ok r), [])
      | .error e =>
        if rem = 0 then (some (.error e), [])
        else ((queryVectorsGo att rem (attempt + 1)).1,
          2 ^ attempt * 1000 :: (queryVectorsGo att rem (attempt + 1)).2) :=
  rfl

/-- C7: each query attempt is raced against the 20-second timeout (any
attempt lasting longer than 20000 ms is seen as the timeout error), and with
the configured maximum of 3 attempts, exponential backoff waits of
`2^attempt` seconds (2000 ms then 4000 ms) separate the attempts; when every
attempt fails the loop rethrows the error of the last attempt — it never
returns an empty success in place of the failure. -/
theorem queryVectors_retry_exhaustion {R : Type}
    (att : Nat → Nat × Except String R) (e1 e2 e3 : String)
    (h1 : raceTimeout (att 1).1 (att 1).2 = .error e1)
    (h2 : raceTimeout (att 2).1 (att 2).2 = .error e2)
    (h3 : raceTimeout (att 3).1 (att 3).2 = .error e3) :
    queryVectors att 3 = (some (.error e3), [2000, 4000]) ∧
    (∀ (d : Nat) (out : Except String R), 20000 < d →
      raceTimeout d out = .error "Pinecone query timeout after 20 seconds") := by
  constructor
  · have s3 : queryVectorsGo att 1 3 = (some (.error e3), []) := by
      rw [show (1 : Nat) = 0 + 1 from rfl, queryVectorsGo_succ, h3]
      rfl
    have s2 : queryVectorsGo att 2 2 = (some (.error e3), [4000]) := by
      rw [show (2 : Nat) = 1 + 1 from rfl, queryVectorsGo_succ, h2]
      show ((queryVectorsGo att 1 3).1,
        2 ^ 2 * 1000 :: (queryVectorsGo att 1 3).2) = _
      rw [s3]
      rfl
    have s1 : queryVectorsGo att 3 1 = (some (.error e3), [2000, 4000]) := by
      rw [show (3 : Nat) = 2 + 1 from rfl, queryVectorsGo_succ, h1]
      show ((queryVectorsGo att 2 2).1,
        2 ^ 1 * 1000 :: (queryVectorsGo att 2 2).2) = _
      rw [s2]
      rfl
    exact s1
  · intro d out hd
    simp only [raceTimeout]
    rw [if_neg (by omega)]

/-- C7 witness: an attempt source that always takes 25 seconds is turned into
the timeout error on every attempt, and the loop therefore ends by throwing
the timeout error after waiting 2000 ms and 4000 ms. -/
theorem queryVectors_retry_exhaustion_witness :
    raceTimeout ((fun _ : Nat => ((25000 : Nat),
        (Except.ok () : Except String Unit))) 1).1
      ((fun _ : Nat => ((25000 : Nat), (Except.ok () : Except String Unit))) 1).2 =
      .error "Pinecone query timeout after 20 seconds" ∧
    queryVectors (fun _ : Nat => ((25000 : Nat),
        (Except.ok () : Except String Unit))) 3 =
      (some (.error "Pinecone query timeout after 20 seconds"), [2000, 4000]) :=
  ⟨rfl,
    (queryVectors_retry_exhaustion
      (fun _ : Nat => ((25000 : Nat), (Except.ok () : Except String Unit)))
      "Pinecone query timeout after 20 seconds"
      "Pinecone query timeout after 20 seconds"
      "Pinecone query timeout after 20 seconds" rfl rfl rfl).1⟩

/-! ## Claim theorem for the ingestion batch loop (C8) -/

/-- C8: when the processed directory can be created and the uploads directory
can be listed, `processSessionFiles` calls `processFile` on every listed file,
catches any per-file failure (for example the `EmptyContent` rejection of a
blank file) and skips that file, and returns exactly the manifests of the
successful files in order — one failing file never aborts the batch. -/
theorem processSessionFiles_skips_failures (sessionId : String)
    (mkdirRes : Except String Unit) (readdirRes : Except String (List String))
    (fx : String → FileFx) (now : String) (files : List String)
    (hm : mkdirRes = .ok ()) (hr : readdirRes = .ok files) :
    processSessionFiles sessionId mkdirRes readdirRes fx now =
      .ok (files.filterMap
        (fun f => (processFile sessionId f (fx f) now).toOption)) := by
  subst hm
  subst hr
  simp only [processSessionFiles]
  congr 1
  induction files with
  | nil => rfl
  | cons f fs ih =>
    simp only [processBatch, List.filterMap_cons]
    cases h : processFile sessionId f (fx f) now with
    | ok doc => simp [h, Except.toOption, ih]
    | error e => simp [h, Except.toOption, ih]

/-- C8 witness: a batch of three files in which the middle one parses to
blank text (raising the `EmptyContent` error inside `processFile`) yields
exactly the manifests of the two good files. -/
theorem processSessionFiles_skips_failures_witness :
    ((Except.ok () : Except String Unit) = .ok ()) ∧
    processSessionFiles "sess" (.ok ()) (.ok ["a.txt", "empty.txt", "b.txt"])
        (fun f =>
          if f = "a.txt" then
            ⟨.ok 11, .ok ("Hello world".toList, none), .ok ()⟩
          else if f = "empty.txt" then
            ⟨.ok 4, .ok ("   ".toList, none), .ok ()⟩
          else ⟨.ok 3, .ok ("Bye".toList, none), .ok ()⟩) "t0" =
      .ok ((["a.txt", "empty.txt", "b.txt"]).filterMap
        (fun f => (processFile "sess" f
          ((fun f =>
            if f = "a.txt" then
              (⟨.ok 11, .ok ("Hello world".toList, none), .ok ()⟩ : FileFx)
            else if f = "empty.txt" then
              ⟨.ok 4, .ok ("   ".toList, none), .ok ()⟩
            else ⟨.ok 3, .ok ("Bye".toList, none), .ok ()⟩) f) "t0").toOption)) ∧
    (processFile "sess" "empty.txt"
        ⟨.ok 4, .ok ("   ".toList, none), .ok ()⟩ "t0" =
      .error "No text content found in file") ∧
    ((["a.txt", "empty.txt", "b.txt"]).filterMap
      (fun f => (processFile "sess" f
        ((fun f =>
          if f = "a.txt" then
            (⟨.ok 11, .ok ("Hello world".toList, none), .ok ()⟩ : FileFx)
          else if f = "empty.txt" then
            ⟨.ok 4, .ok ("   ".toList, none), .ok ()⟩
          else ⟨.ok 3, .ok ("Bye".toList, none), .ok ()⟩) f) "t0").toOption)).length = 2 :=
  ⟨rfl,
    processSessionFiles_skips_failures "sess" (.ok ())
      (.ok ["a.txt", "empty.txt", "b.txt"]) _ "t0"
      ["a.txt", "empty.txt", "b.txt"] rfl rfl,
    rfl, by decide⟩

/-! ## Claim theorems for the PDF parser (C9) -/

/-- C9 counterexample: a non-empty PDF file (2048 bytes) whose extraction
succeeds but yields empty text makes `parsePDF` return the empty string with
no sentinel — the empty text is returned silently, contradicting the claim
that a non-empty input always produces either real content or a sentinel. -/
theorem parsePDF_empty_extraction_counterexample :
    parsePDF "uploads/report.pdf" true (.ok 2048) true
        (.ok { text := some "", numpages := some 3 }) = ("", some 3) ∧
    (2048 : Nat) ≠ 0 ∧
    ("" : String) ≠ pdfUnavailableSentinel "uploads/report.pdf" ∧
    (∀ msg, ("" : String) ≠ pdfErrorSentinel "uploads/report.pdf" msg) := by
  refine ⟨rfl, by decide, by decide, ?_⟩
  intro msg h
  have hlen := congrArg String.length h
  rw [pdfErrorSentinel] at hlen
  rw [String.length_append, String.length_append, String.length_append] at hlen
  have h1 : ("] - " : String).length = 4 := by decide
  have h0 : ("" : String).length = 0 := by decide
  omega

/-- C9 amended: for a `.pdf` file the parser never throws — on a read
failure, on unavailability of the PDF library, or on an extraction failure it
returns a sentinel string (naming the file) together with `pages = 1`; but
when extraction itself succeeds, the extracted text is returned as-is, so an
empty extraction of a non-empty file is passed through silently (the blank
check happens later, in `processFile`). -/
theorem parsePDF_sentinel_on_failure (filePath : String) (available : Bool)
    (readRes : Except String Nat) (importOk : Bool)
    (parseRes : Except String PdfData)
    (hfail : available = false ∨ (∃ e, readRes = .error e) ∨
      importOk = false ∨ (∃ e, parseRes = .error e)) :
    (parsePDF filePath available readRes importOk parseRes).2 = some 1 ∧
    ((parsePDF filePath available readRes importOk parseRes).1 =
        pdfUnavailableSentinel filePath ∨
      ∃ msg, (parsePDF filePath available readRes importOk parseRes).1 =
        pdfErrorSentinel filePath msg) := by
  cases available with
  | false => exact ⟨rfl, Or.inl rfl⟩
  | true =>
    cases readRes with
    | error e => exact ⟨rfl, Or.inr ⟨e, rfl⟩⟩
    | ok sz =>
      cases importOk with
      | false =>
        exact ⟨rfl, Or.inr ⟨"PDF parsing library is not available", rfl⟩⟩
      | true =>
        cases parseRes with
        | error e => exact ⟨rfl, Or.inr ⟨e, rfl⟩⟩
        | ok d =>
          rcases hfail with h | ⟨e, h⟩ | h | ⟨e, h⟩
          · exact absurd h (by simp)
          · exact absurd h (by simp)
          · exact absurd h (by simp)
          · exact absurd h (by simp)

/-- C9 amended witness: with the PDF library unavailable the parser degrades
to the unavailability sentinel and one page instead of throwing. -/
theorem parsePDF_sentinel_on_failure_witness :
    (false = false ∨ (∃ e, (Except.ok 10 : Except String Nat) = .error e) ∨
      true = false ∨
      (∃ e, (Except.ok { text := some "t", numpages := some 1 } :
        Except String PdfData) = .error e)) ∧
    ((parsePDF "kb/doc.pdf" false (.ok 10) true
        (.ok { text := some "t", numpages := some 1 })).2 = some 1 ∧
      ((parsePDF "kb/doc.pdf" false (.ok 10) true
          (.ok { text := some "t", numpages := some 1 })).1 =
          pdfUnavailableSentinel "kb/doc.pdf" ∨
        ∃ msg, (parsePDF "kb/doc.pdf" false (.ok 10) true
          (.ok { text := some "t", numpages := some 1 })).1 =
          pdfErrorSentinel "kb/doc.pdf" msg)) :=
  ⟨Or.inl rfl,
    parsePDF_sentinel_on_failure "kb/doc.pdf" false (.ok 10) true
      (.ok { text := some "t", numpages := some 1 }) (Or.inl rfl)⟩

/-! ## Claim theorems for the upsert path (C10) -/

/-- C10 counterexample: `upsertVectors` performs no dimension validation —
the issued upsert request contains, unchanged, a vector of length 2 even
though the index dimension used at creation is 1536, so a mismatched call is
not rejected before the upsert is issued. -/
theorem upsertVectors_no_dimension_check_counterexample :
    (upsertVectors "realvtuber-index"
        [{ id := "v1", values := [1, 2], metadata := none }] none).vectors =
      [{ id := "v1", values := [1, 2], metadata := none }] ∧
    ([(1 : ℚ), 2].length ≠ 1536) ∧
    getOrCreateIndex [] "realvtuber-index" =
      some { name := "realvtuber-index", dimension := 1536 } := by
  exact ⟨rfl, by decide, rfl⟩

/-- C10 amended: `upsertVectors` forwards the caller's vectors to the
namespaced upsert request exactly as given (namespace defaulting to the empty
string) with no dimension check — dimension enforcement is left to the
external vector database service — and `getOrCreateIndex` creates every
missing index with the fixed dimension 1536. -/
theorem upsertVectors_forwards_unchanged (indexName : String)
    (vectors : List VectorRecord) (ns : Option String)
    (existing : List String) (hnew : indexName ∉ existing) :
    (upsertVectors indexName vectors ns).vectors = vectors ∧
    (upsertVectors indexName vectors ns).ns = jsOrString ns "" ∧
    (upsertVectors indexName vectors ns).indexName = indexName ∧
    getOrCreateIndex existing indexName =
      some { name := indexName, dimension := 1536 } := by
  refine ⟨rfl, rfl, rfl, ?_⟩
  simp only [getOrCreateIndex, if_neg hnew]

/-- C10 amended witness: a concrete upsert into a fresh index passes the
single length-2 vector through unchanged under namespace `sessA`. -/
theorem upsertVectors_forwards_unchanged_witness :
    ("realvtuber-index" ∉ ([] : List String)) ∧
    ((upsertVectors "realvtuber-index"
        [{ id := "v1", values := [1, 2], metadata := none }]
        (some "sessA")).vectors =
      [{ id := "v1", values := [1, 2], metadata := none }] ∧
    (upsertVectors "realvtuber-index"
        [{ id := "v1", values := [1, 2], metadata := none }]
        (some "sessA")).ns = jsOrString (some "sessA") "" ∧
    (upsertVectors "realvtuber-index"
        [{ id := "v1", values := [1, 2], metadata := none }]
        (some "sessA")).indexName = "realvtuber-index" ∧
    getOrCreateIndex [] "realvtuber-index" =
      some { name := "realvtuber-index", dimension := 1536 }) :=
  ⟨by decide,
    upsertVectors_forwards_unchanged "realvtuber-index"
      [{ id := "v1", values := [1, 2], metadata := none }] (some "sessA") []
      (by decide)⟩

end RV
